import Mathlib

/-!
Shallow embedding of the clashofclans.js event-polling core
(`src/struct/Events` and `src/utils/utils.ts`), with theorems checking the
natural-language specification against the code.

Conventions of the embedding:
* JS strings are Lean `String` (internally `List Char` for induction);
* machine time (`Date.now()` differences) is a `Nat` number of milliseconds,
  supplied as an explicit pass-duration parameter;
* `string | false` returns are `Option String`;
* code that can throw across a boundary returns `Except JsError _`;
* the interleaving of the cooperative scheduler is made explicit: a sweep
  pass takes an environment `env : Nat → Bool` telling at which loop
  iterations a concurrent `clear*` call lands, and an oracle
  `f : Nat → Except JsError FetchResult` giving each fetch's outcome.
-/

namespace ClashSpec

/- ------------------------------------------------------------------ -/
/- Tag validation (src/utils/utils.ts, `validateTag`)                  -/
/- ------------------------------------------------------------------ -/

/-- The character class of the tag regular expression `[0289PYLQGRJCUV]`. -/
def allowedChars : List Char :=
  ['0', '2', '8', '9', 'P', 'Y', 'L', 'Q', 'G', 'R', 'J', 'C', 'U', 'V']

/-- Membership in the tag character class. -/
def isAllowed (c : Char) : Bool := allowedChars.contains c

/-- `tagRegex.exec tag` for `/[0289PYLQGRJCUV]{3,9}/g`: the leftmost position
with at least 3 consecutive allowed characters yields a greedy match of at
most 9 of them. -/
def execTagRegex : List Char → Option (List Char)
  | [] => none
  | c :: rest =>
    let run := List.takeWhile isAllowed (c :: rest)
    if 3 ≤ run.length then some (run.take 9) else execTagRegex rest

/-- `String.prototype.toUpperCase` restricted to one character (the embedding
is ASCII-faithful, which covers `#`, digits and letters). -/
def jsUpper (c : Char) : Char := c.toUpper

/-- One character of `.replace(/O/g, '0')`. -/
def replaceO (c : Char) : Char := if c = 'O' then '0' else c

/-- `.replace('#', '')`: removes only the first occurrence. -/
def removeFirstHash : List Char → List Char
  | [] => []
  | c :: rest => if c = '#' then rest else c :: removeFirstHash rest

/-- `validateTag` (src/utils/utils.ts) on the character list, with the default
`encode = false`. `none` is the JS `false` return. -/
def validateTagL (msg : List Char) : Option (List Char) :=
  if msg = [] then none
  else
    let tag := removeFirstHash (msg.map (fun c => replaceO (jsUpper c)))
    match execTagRegex tag with
    | some r => some ('#' :: r)
    | none => none

/-- `validateTag` on `String`. -/
def validateTag (msg : String) : Option String :=
  (validateTagL msg.data).map fun l => ⟨l⟩

/- ------------------------------------------------------------------ -/
/- fetchURL (src/utils/utils.ts)                                       -/
/- ------------------------------------------------------------------ -/

/-- A parsed JSON body: an opaque identity plus its JS truthiness
(`if (!parsed)` in the source tests truthiness, not only `null`). -/
structure JsVal where
  id : Nat
  truthy : Bool
deriving DecidableEq

/-- A JS number as far as the integer embedding needs it. -/
inductive JsNum where
  | nan
  | val (n : Nat)
deriving DecidableEq

/-- Errors thrown across a JS boundary. -/
inductive JsError where
  | typeError
deriving DecidableEq

/-- The observable behaviour of `fetch(url, …)` as `fetchURL` consumes it:
HTTP status, the `cache-control` header (absent headers read as `null`), and
the result of `res.json()` (`none` when the promise rejects). -/
structure HttpResponse where
  status : Nat
  cacheControl : Option String
  jsonBody : Option JsVal
deriving DecidableEq

/-- Outcome of the underlying transport: rejection (collapsed to `null` by
the source's `.catch(() => null)`) or a response. -/
inductive FetchOutcome where
  | transportFailure
  | response (r : HttpResponse)
deriving DecidableEq

/-- What `fetchURL` hands back to its caller. `body = none` for the bare
sentinel objects, which carry no `maxAge` field either. -/
structure FetchResult where
  body : Option JsVal
  status : Nat
  ok : Bool
  maxAge : Option JsNum
deriving DecidableEq

/-- JS `String.prototype.split(sep)` for a one-character separator. -/
def jsSplit (sep : Char) : List Char → List (List Char)
  | [] => [[]]
  | c :: rest =>
    let r := jsSplit sep rest
    if c = sep then [] :: r
    else
      match r with
      | [] => [[c]]
      | h :: t => (c :: h) :: t

/-- Accumulating decimal reading for `Number(x)`: `none` on the first
non-digit character. -/
def digitsVal (acc : Nat) : List Char → Option Nat
  | [] => some acc
  | c :: rest => if c.isDigit then digitsVal (acc * 10 + (c.toNat - 48)) rest else none

/-- `Number(x)` for the argument shapes `fetchURL` produces: `undefined`
(`none`) is `NaN`; decimal digit strings are their value (and `Number('')`
is `0`, as in JS); other strings are collapsed to `NaN` (fractional and
exponent forms lie outside the integer embedding and are never compared by
a theorem). -/
def jsNumber (s : Option (List Char)) : JsNum :=
  match s with
  | none => .nan
  | some str =>
    match digitsVal 0 str with
    | some n => .val n
    | none => .nan

/-- `fetchURL` (src/utils/utils.ts): url, token and timeout only feed the
transport, so the embedding takes the transport's behaviour directly.
`res.headers.get('cache-control')!.split('=')[1]` throws a `TypeError` when
the header is absent, since `get` then returns `null`. -/
def fetchURL (o : FetchOutcome) : Except JsError FetchResult :=
  match o with
  | .transportFailure => .ok { body := none, status := 504, ok := false, maxAge := none }
  | .response r =>
    match r.jsonBody with
    | none => .ok { body := none, status := r.status, ok := false, maxAge := none }
    | some parsed =>
      if parsed.truthy = false then
        .ok { body := none, status := r.status, ok := false, maxAge := none }
      else
        match r.cacheControl with
        | none => .error .typeError
        | some cc =>
          .ok { body := some parsed, status := r.status, ok := r.status == 200,
                maxAge := some (jsNumber ((jsSplit '=' cc.data).get? 1)) }

/- ------------------------------------------------------------------ -/
/- Store (watch set)                                                   -/
/- ------------------------------------------------------------------ -/

/-- A stored snapshot: the `{}` placeholder written by `add*`, or the raw
fetch result written back by an update handler. -/
inductive Snapshot where
  | empty
  | data (r : FetchResult)
deriving DecidableEq

/-- Modelled from the spec: the `Store` class (src/struct/Store, imported by
Events but not under src/) — §4.1's ordered key→snapshot mapping with
JS-`Map` semantics: insertion order preserved, `set` of a present key updates
in place, `set` of an absent key appends, no duplicate keys. -/
structure Store where
  entries : List (String × Snapshot)
deriving DecidableEq

/-- `Map.prototype.has`. -/
def Store.has (s : Store) (t : String) : Bool :=
  s.entries.any fun e => e.1 == t

/-- `Map.prototype.set`: update in place when the key is present, append
otherwise. -/
def Store.set (s : Store) (t : String) (v : Snapshot) : Store :=
  if s.has t then ⟨s.entries.map fun e => if e.1 == t then (e.1, v) else e⟩
  else ⟨s.entries ++ [(t, v)]⟩

/-- `Map.prototype.delete` (ignoring the returned boolean). -/
def Store.delete (s : Store) (t : String) : Store :=
  ⟨s.entries.filter fun e => ¬ e.1 == t⟩

/-- `Map.prototype.clear`. -/
def Store.clear (_ : Store) : Store := ⟨[]⟩

/-- `Map.prototype.keys`, in insertion order. -/
def Store.keys (s : Store) : List String :=
  s.entries.map Prod.fst

/- ------------------------------------------------------------------ -/
/- Events state (src/struct/Events constructor fields)                 -/
/- ------------------------------------------------------------------ -/

/-- The mutable state of an `Events` instance. `throttlerRate` is the value
passed to `new Throttler(...)`; modelled from the spec: the `Throttler` class
(src/utils/Throttler, not under src/) stores its configured rate and §4.3
gives it no failure conditions. -/
structure EventsState where
  clans : Store
  players : Store
  wars : Store
  rateLimit : Nat
  refreshRate : Nat
  tokens : List String
  baseUrl : String
  timeout : Nat
  throttlerRate : Nat
  activeToken : Nat
  isInMaintenance : Bool
  initialized : Bool
  loopBreakClan : Bool
  loopBreakPlayer : Bool
  loopBreakWar : Bool
deriving DecidableEq

/-- The recognized `EventsOption` fields; optional fields are `Option`. -/
structure EventsOption where
  tokens : List String
  baseUrl : Option String
  timeout : Option Nat
  rateLimit : Option Nat
  refreshRate : Option Nat
deriving DecidableEq

/-- JS `x || d` for a possibly-absent number (`0` is falsy). -/
def jsOrNat (x : Option Nat) (d : Nat) : Nat :=
  match x with
  | some v => if v = 0 then d else v
  | none => d

/-- JS `x || d` for a possibly-absent string (`''` is falsy). -/
def jsOrStr (x : Option String) (d : String) : String :=
  match x with
  | some v => if v = "" then d else v
  | none => d

namespace Events

/-- The `Events` constructor. The body performs no validation and has no
throw path (the `Throttler` constructor, per §4.3, has none either), so every
branch is `Except.ok`; the `Except` wrapper is the boundary across which a
configuration error would have to surface. -/
def construct (o : EventsOption) : Except String EventsState :=
  let rateLimit := jsOrNat o.rateLimit 10
  .ok { clans := ⟨[]⟩
        players := ⟨[]⟩
        wars := ⟨[]⟩
        rateLimit := rateLimit
        refreshRate := jsOrNat o.refreshRate 120000
        tokens := o.tokens
        baseUrl := jsOrStr o.baseUrl "https://api.clashofclans.com/v1"
        timeout := jsOrNat o.timeout 0
        throttlerRate := rateLimit * o.tokens.length
        activeToken := 0
        isInMaintenance := false
        initialized := false
        loopBreakClan := false
        loopBreakPlayer := false
        loopBreakWar := false }

/-- `addPlayers` (the `string | string[]` argument is taken as the list it is
normalized to). -/
def addPlayers (st : EventsState) (tags : List String) : EventsState :=
  tags.foldl (fun st msg =>
    match validateTag msg with
    | some tag =>
      if ¬ st.players.has tag then { st with players := st.players.set tag .empty } else st
    | none => st) st

/-- `removePlayers`. -/
def removePlayers (st : EventsState) (tags : List String) : EventsState :=
  tags.foldl (fun st msg =>
    match validateTag msg with
    | some tag =>
      if st.players.has tag then { st with players := st.players.delete tag } else st
    | none => st) st

/-- `clearPlayers`. -/
def clearPlayers (st : EventsState) : EventsState :=
  { st with loopBreakPlayer := true, players := st.players.clear }

/-- `addClans`. -/
def addClans (st : EventsState) (tags : List String) : EventsState :=
  tags.foldl (fun st msg =>
    match validateTag msg with
    | some tag =>
      if ¬ st.clans.has tag then { st with clans := st.clans.set tag .empty } else st
    | none => st) st

/-- `removeClans`. -/
def removeClans (st : EventsState) (tags : List String) : EventsState :=
  tags.foldl (fun st msg =>
    match validateTag msg with
    | some tag =>
      if st.clans.has tag then { st with clans := st.clans.delete tag } else st
    | none => st) st

/-- `clearClans`. -/
def clearClans (st : EventsState) : EventsState :=
  { st with loopBreakClan := true, clans := st.clans.clear }

/-- `addWars`. -/
def addWars (st : EventsState) (tags : List String) : EventsState :=
  tags.foldl (fun st msg =>
    match validateTag msg with
    | some tag =>
      if ¬ st.wars.has tag then { st with wars := st.wars.set tag .empty } else st
    | none => st) st

/-- `removeWars`. -/
def removeWars (st : EventsState) (tags : List String) : EventsState :=
  tags.foldl (fun st msg =>
    match validateTag msg with
    | some tag =>
      if st.wars.has tag then { st with wars := st.wars.delete tag } else st
    | none => st) st

/-- `clearWars`. -/
def clearWars (st : EventsState) : EventsState :=
  { st with loopBreakWar := true, wars := st.wars.clear }

end Events

/- ------------------------------------------------------------------ -/
/- Category view over the three identical sweep structures             -/
/- ------------------------------------------------------------------ -/

/-- The three watched categories. -/
inductive Category where
  | clan
  | player
  | war
deriving DecidableEq

/-- The category's watch set. -/
def catStore (cat : Category) (st : EventsState) : Store :=
  match cat with
  | .clan => st.clans
  | .player => st.players
  | .war => st.wars

/-- The category's `loopBreak` abort flag. -/
def catFlag (cat : Category) (st : EventsState) : Bool :=
  match cat with
  | .clan => st.loopBreakClan
  | .player => st.loopBreakPlayer
  | .war => st.loopBreakWar

/-- The category's `add*` method. -/
def addTags (cat : Category) (st : EventsState) (tags : List String) : EventsState :=
  match cat with
  | .clan => Events.addClans st tags
  | .player => Events.addPlayers st tags
  | .war => Events.addWars st tags

/-- The category's `remove*` method. -/
def removeTags (cat : Category) (st : EventsState) (tags : List String) : EventsState :=
  match cat with
  | .clan => Events.removeClans st tags
  | .player => Events.removePlayers st tags
  | .war => Events.removeWars st tags

/-- The category's `clear*` method. -/
def clearCat (cat : Category) (st : EventsState) : EventsState :=
  match cat with
  | .clan => Events.clearClans st
  | .player => Events.clearPlayers st
  | .war => Events.clearWars st

/- ------------------------------------------------------------------ -/
/- Credential rotation (`private get token`)                           -/
/- ------------------------------------------------------------------ -/

/-- The `token` getter: read `tokens[activeToken]` (JS indexing out of range
reads `undefined`, hence `Option`), then advance the cursor, wrapping to `0`
when `activeToken + 1 >= tokens.length`. -/
def tokenStep (st : EventsState) : Option String × EventsState :=
  (st.tokens.get? st.activeToken,
   { st with activeToken :=
      if st.tokens.length ≤ st.activeToken + 1 then 0 else st.activeToken + 1 })

/-- The results of `n` consecutive reads of the `token` getter. -/
def tokenRun : Nat → EventsState → List (Option String)
  | 0, _ => []
  | n + 1, st =>
    let r := tokenStep st
    r.1 :: tokenRun n r.2

/- ------------------------------------------------------------------ -/
/- Sweep rescheduling arithmetic                                       -/
/- ------------------------------------------------------------------ -/

/-- `timeTaken >= refreshRate ? 0 : refreshRate - timeTaken`, shared verbatim
by the three sweep loops. -/
def waitFor (refreshRate timeTaken : Nat) : Nat :=
  if refreshRate ≤ timeTaken then 0 else refreshRate - timeTaken

/- ------------------------------------------------------------------ -/
/- Maintenance probe (`checkMaintenace`)                               -/
/- ------------------------------------------------------------------ -/

/-- The events the maintenance probe can emit. -/
inductive MEvent where
  | maintenanceStart
  | maintenanceEnd
deriving DecidableEq

/-- One probe observation in `checkMaintenace`: the `if / else if` on
`data.status` against the current flag, returning the new flag and the
emitted events. -/
def checkMaintenaceStep (isInMaintenance : Bool) (status : Nat) : Bool × List MEvent :=
  if status == 503 && !isInMaintenance then (true, [.maintenanceStart])
  else if status == 200 && isInMaintenance then (false, [.maintenanceEnd])
  else (isInMaintenance, [])

/-- A sequence of probe passes: thread the flag through
`checkMaintenaceStep`, accumulating emitted events in order. -/
def runProbes (flag : Bool) (statuses : List Nat) : Bool × List MEvent :=
  statuses.foldl
    (fun acc s =>
      let r := checkMaintenaceStep acc.1 s
      (r.1, acc.2 ++ r.2))
    (flag, [])

/- ------------------------------------------------------------------ -/
/- Sweep loops (`initClanEvents` / `initPlayerEvents` / `initWarEvents`) -/
/- ------------------------------------------------------------------ -/

/-- The abort branch shared by break and post-loop handling:
`this.<store>.clear(); this.loopBreak.<cat> = false;`. -/
def resetAbort (cat : Category) (st : EventsState) : EventsState :=
  match cat with
  | .clan => { st with clans := st.clans.clear, loopBreakClan := false }
  | .player => { st with players := st.players.clear, loopBreakPlayer := false }
  | .war => { st with wars := st.wars.clear, loopBreakWar := false }

/-- Modelled from the spec: the per-category update handlers
(src/utils/updateHandler, not under src/) — §6: the handler diffs the fresh
result against the stored snapshot, emits change events, and "writ[es] the
new snapshot back into the WatchSet"; only the snapshot write touches core
state. -/
def handleUpdate (cat : Category) (st : EventsState) (t : String) (r : FetchResult) : EventsState :=
  match cat with
  | .clan => { st with clans := st.clans.set t (.data r) }
  | .player => { st with players := st.players.set t (.data r) }
  | .war => { st with wars := st.wars.set t (.data r) }

/-- Result of the `for (const tag of keys)` loop body plus the post-loop
abort handling. `thrown = true` records that an `await this.fetch(...)`
rejected, which propagates out of the async method at once (skipping the
post-loop code and the `setTimeout`). -/
structure LoopRes where
  processed : List String
  state : EventsState
  thrown : Bool
deriving DecidableEq

/-- The tag loop of a sweep pass over the key list `l`, starting at loop
counter `k`. The cooperative interleaving is explicit: before the abort-flag
check of iteration `k` (and once after the loop, covering a clear landing
during the final fetch's await), `env k = true` injects a concurrent
`clear*` call for this category. A tag is recorded in `processed` once its
fetch result has been handed to the update handler. -/
def sweepLoop (cat : Category) (env : Nat → Bool) (f : Nat → Except JsError FetchResult) :
    List String → EventsState → Nat → LoopRes
  | [], st, k =>
    let st1 := if env k then clearCat cat st else st
    if catFlag cat st1 then ⟨[], resetAbort cat st1, false⟩
    else ⟨[], st1, false⟩
  | t :: rest, st, k =>
    let st1 := if env k then clearCat cat st else st
    if catFlag cat st1 then ⟨[], resetAbort cat st1, false⟩
    else
      match f k with
      | .error _ => ⟨[], st1, true⟩
      | .ok r =>
        let res := sweepLoop cat env f rest (handleUpdate cat st1 t r) (k + 1)
        ⟨t :: res.processed, res.state, res.thrown⟩

/-- The outcome of one sweep pass: the tags handled, the state left behind,
and the `setTimeout` delay when the pass reached its reschedule line
(`none` when it returned or threw before it). -/
structure PassResult where
  processed : List String
  state : EventsState
  reschedule : Option Nat
deriving DecidableEq

/-- One pass of `initClanEvents` / `initPlayerEvents` / `initWarEvents`:
return immediately if `isInMaintenance`; otherwise run the tag loop and
schedule the next pass after `waitFor refreshRate duration`, where
`duration` is the measured `Date.now() - startTime` of this pass. A thrown
fetch rejects the pass's promise, so nothing is scheduled. -/
def sweepPass (cat : Category) (env : Nat → Bool) (f : Nat → Except JsError FetchResult)
    (duration : Nat) (st : EventsState) : PassResult :=
  if st.isInMaintenance then ⟨[], st, none⟩
  else
    let res := sweepLoop cat env f (Store.keys (catStore cat st)) st 0
    if res.thrown then ⟨res.processed, res.state, none⟩
    else ⟨res.processed, res.state, some (waitFor st.refreshRate duration)⟩

/- ------------------------------------------------------------------ -/
/- Concrete data for closed evaluations                                -/
/- ------------------------------------------------------------------ -/

/-- A concrete initialized state: three credentials, cursor at 1, defaults
for the numeric options, empty watch sets. -/
def sampleState : EventsState :=
  { clans := ⟨[]⟩
    players := ⟨[]⟩
    wars := ⟨[]⟩
    rateLimit := 10
    refreshRate := 120000
    tokens := ["A", "B", "C"]
    baseUrl := "https://api.clashofclans.com/v1"
    timeout := 0
    throttlerRate := 30
    activeToken := 1
    isInMaintenance := false
    initialized := true
    loopBreakClan := false
    loopBreakPlayer := false
    loopBreakWar := false }

/-- A concrete fetch result (the 504 sentinel) for loop oracles. -/
def sentinel504 : FetchResult :=
  { body := none, status := 504, ok := false, maxAge := none }

/- ================================================================== -/
/- Theorems                                                            -/
/- ================================================================== -/

/-- C2 counterexample: constructing with an empty credential pool does not
fail — the constructor has no validation and succeeds on zero tokens, so the
claimed fail-fast configuration error does not exist in the code. -/
theorem construct_empty_pool_succeeds :
    (Events.construct
      { tokens := [], baseUrl := none, timeout := none,
        rateLimit := none, refreshRate := none }).isOk = true := rfl

/-- C2 (amended): construction never fails for any options value — the
constructor performs no pool-size validation and has no error path, so even
an empty credential pool constructs successfully. -/
theorem construct_never_fails (o : EventsOption) :
    (Events.construct o).isOk = true := rfl

/-- C3 counterexample: `fetchURL` does throw across its boundary — a
successful, JSON-parseable response whose headers lack `cache-control` makes
`res.headers.get('cache-control')!.split('=')` throw a `TypeError`. -/
theorem fetchURL_throws_without_cache_control :
    fetchURL (.response { status := 200, cacheControl := none,
                          jsonBody := some ⟨0, true⟩ }) = .error .typeError := rfl

/-- C3 (amended): on transport failure `fetchURL` returns the
`ok = false, status = 504` sentinel; on a body that fails to parse (or
parses to a JS-falsy value) it returns `ok = false` with the actual HTTP
status; on a truthy parsed body with a `cache-control` header present it
returns the body augmented with `status`, `ok` (true iff status 200) and
`maxAge`; and it throws exactly when a truthy parsed body comes with no
`cache-control` header. -/
theorem fetchURL_spec (r : HttpResponse) (b : JsVal) (cc : String) :
    fetchURL .transportFailure = .ok ⟨none, 504, false, none⟩
    ∧ (r.jsonBody = none → fetchURL (.response r) = .ok ⟨none, r.status, false, none⟩)
    ∧ (r.jsonBody = some b → b.truthy = true → r.cacheControl = some cc →
        fetchURL (.response r) =
          .ok ⟨some b, r.status, r.status == 200, some (jsNumber ((jsSplit '=' cc.data).get? 1))⟩)
    ∧ ((∃ e, fetchURL (.response r) = .error e) ↔
        (∃ v, r.jsonBody = some v ∧ v.truthy = true) ∧ r.cacheControl = none) := by
  refine ⟨rfl, ?_, ?_, ?_⟩
  · intro h
    simp [fetchURL, h]
  · intro h1 h2 h3
    simp [fetchURL, h1, h2, h3]
  · constructor
    · rintro ⟨e, he⟩
      obtain ⟨status, hcc, jb⟩ := r
      rcases jb with _ | ⟨i, tv⟩
      · simp [fetchURL] at he
      · cases tv
        · simp [fetchURL] at he
        · rcases hcc with _ | c
          · exact ⟨⟨⟨i, true⟩, rfl, rfl⟩, rfl⟩
          · simp [fetchURL] at he
    · rintro ⟨⟨v, hv, ht⟩, hcc⟩
      exact ⟨.typeError, by simp [fetchURL, hv, ht, hcc]⟩

/-- C3 witness: a 200 response with body and `cache-control: max-age=60`
yields the augmented result with `ok = true` and `maxAge = 60`. -/
theorem fetchURL_spec_witness :
    fetchURL (.response { status := 200, cacheControl := some "public, max-age=60",
                          jsonBody := some ⟨1, true⟩ }) =
      .ok ⟨some ⟨1, true⟩, 200, true, some (.val 60)⟩ :=
  ((fetchURL_spec ⟨200, some "public, max-age=60", some ⟨1, true⟩⟩
      ⟨1, true⟩ "public, max-age=60").2.2.1 rfl rfl rfl).trans rfl

/-- C4: whenever a sweep pass schedules its next pass, the scheduled delay
equals `max 0 (refreshRate − duration)` — zero when the pass took at least
`refreshRate`, the remainder otherwise, never negative. -/
theorem sweepPass_wait_eq_max (cat : Category) (env : Nat → Bool)
    (f : Nat → Except JsError FetchResult) (d : Nat) (st : EventsState) (w : Nat)
    (h : (sweepPass cat env f d st).reschedule = some w) :
    (w : Int) = max 0 ((st.refreshRate : Int) - (d : Int)) := by
  have hw : w = waitFor st.refreshRate d := by
    unfold sweepPass at h
    split at h
    · simp at h
    · dsimp only at h
      split at h
      · simp at h
      · simpa using h.symm
  subst hw
  unfold waitFor
  split <;> omega

/-- C4 witness: an empty pass with `refreshRate = 120000` and a measured
duration of 100 ms schedules the next pass after 119900 ms, which is
`max 0 (120000 − 100)`. -/
theorem sweepPass_wait_eq_max_witness :
    (sweepPass .clan (fun _ => false) (fun _ => .ok sentinel504) 100 sampleState).reschedule
      = some 119900
    ∧ (119900 : Int) = max 0 ((sampleState.refreshRate : Int) - (100 : Int)) :=
  ⟨by decide,
   sweepPass_wait_eq_max .clan (fun _ => false) (fun _ => .ok sentinel504) 100 sampleState
     119900 (by decide)⟩

/-- C7: the maintenance probe is edge-triggered — 503 while not in
maintenance sets the flag and emits one `maintenanceStart`; 200 while in
maintenance resets it and emits one `maintenanceEnd`; everything else is a
no-op; in particular two consecutive 503 probes emit exactly one
`maintenanceStart` and a subsequent 200 exactly one `maintenanceEnd`. -/
theorem maintenance_edge_triggered (b : Bool) (s : Nat) :
    (s = 503 → b = false → checkMaintenaceStep b s = (true, [.maintenanceStart]))
    ∧ (s = 200 → b = true → checkMaintenaceStep b s = (false, [.maintenanceEnd]))
    ∧ (¬ (s = 503 ∧ b = false) → ¬ (s = 200 ∧ b = true) → checkMaintenaceStep b s = (b, []))
    ∧ runProbes false [503, 503] = (true, [.maintenanceStart])
    ∧ runProbes false [503, 503, 200] = (false, [.maintenanceStart, .maintenanceEnd]) := by
  refine ⟨?_, ?_, ?_, by decide, by decide⟩
  · intro h1 h2
    subst h1; subst h2
    decide
  · intro h1 h2
    subst h1; subst h2
    decide
  · intro h1 h2
    cases b
    · have hs : s ≠ 503 := fun hs => h1 ⟨hs, rfl⟩
      simp [checkMaintenaceStep, hs]
    · have hs : s ≠ 200 := fun hs => h2 ⟨hs, rfl⟩
      simp [checkMaintenaceStep, hs]

/-- C7 witness: a 503 probe in the non-maintenance state flips the flag and
emits exactly one `maintenanceStart`. -/
theorem maintenance_edge_triggered_witness :
    checkMaintenaceStep false 503 = (true, [.maintenanceStart]) :=
  (maintenance_edge_triggered false 503).1 rfl rfl

/-- Entries whose tag fails validation are identity steps of any
tag-processing fold, so the fold only sees the valid entries. -/
theorem foldl_filter_invalid {β : Type} (g : β → String → β)
    (hg : ∀ b a, validateTag a = none → g b a = b) :
    ∀ (l : List String) (b : β),
      l.foldl g b = (l.filter fun x => (validateTag x).isSome).foldl g b := by
  intro l
  induction l with
  | nil => intro b; rfl
  | cons a l ih =>
    intro b
    rw [List.foldl_cons, List.filter_cons]
    cases hv : validateTag a with
    | none => rw [hg b a hv, ih]; simp [hv]
    | some tag => simp [hv, List.foldl_cons, ih]

/-- C9: a malformed tag is silently skipped by every `add*`/`remove*` — the
batch behaves exactly like the batch with the invalid entries filtered out,
and a call carrying only an invalid tag leaves the state untouched. -/
theorem malformed_tags_filtered (cat : Category) (st : EventsState)
    (tags : List String) (s : String) :
    addTags cat st tags = addTags cat st (tags.filter fun x => (validateTag x).isSome)
    ∧ removeTags cat st tags = removeTags cat st (tags.filter fun x => (validateTag x).isSome)
    ∧ (validateTag s = none → addTags cat st [s] = st ∧ removeTags cat st [s] = st) := by
  have hadd : ∀ (c : Category) (st0 : EventsState) (l : List String),
      addTags c st0 l = addTags c st0 (l.filter fun x => (validateTag x).isSome) := by
    intro c st0 l
    cases c <;>
      exact foldl_filter_invalid _ (fun b a h => by simp [h]) l st0
  have hrem : ∀ (c : Category) (st0 : EventsState) (l : List String),
      removeTags c st0 l = removeTags c st0 (l.filter fun x => (validateTag x).isSome) := by
    intro c st0 l
    cases c <;>
      exact foldl_filter_invalid _ (fun b a h => by simp [h]) l st0
  refine ⟨hadd cat st tags, hrem cat st tags, fun h => ⟨?_, ?_⟩⟩
  · rw [hadd cat st [s]]
    simp only [List.filter, h, Option.isSome_none]
    cases cat <;> rfl
  · rw [hrem cat st [s]]
    simp only [List.filter, h, Option.isSome_none]
    cases cat <;> rfl

/-- C9 witness: the malformed tag `"!!"` is skipped by `addPlayers` with no
error and no entry created. -/
theorem malformed_tags_filtered_witness :
    addTags .player sampleState ["!!"] = sampleState :=
  ((malformed_tags_filtered .player sampleState ["!!"] "!!").2.2 rfl).1

/-- A tag is `has`-present exactly when it occurs among the keys. -/
theorem store_has_iff_mem_keys (s : Store) (t : String) :
    s.has t = true ↔ t ∈ s.keys := by
  simp [Store.has, Store.keys, List.any_eq_true, List.mem_map, beq_iff_eq]

/-- `Map.set` keeps the key sequence when the key is present and appends it
otherwise. -/
theorem store_keys_set (s : Store) (t : String) (v : Snapshot) :
    (s.set t v).keys = if s.has t then s.keys else s.keys ++ [t] := by
  unfold Store.set Store.keys
  split
  · simp only [List.map_map]
    exact List.map_congr_left fun e _ => by
      by_cases he : e.1 == t <;> simp [he] <;> split <;> rfl
  · simp

/-- `Map.set` of an absent key appends the entry. -/
theorem store_entries_set_absent (s : Store) (t : String) (v : Snapshot)
    (h : s.has t = false) : (s.set t v).entries = s.entries ++ [(t, v)] := by
  simp [Store.set, h]

/-- `Map.set` never introduces a duplicate key. -/
theorem store_set_keys_nodup (s : Store) (t : String) (v : Snapshot)
    (h : s.keys.Nodup) : (s.set t v).keys.Nodup := by
  rw [store_keys_set]
  split
  · exact h
  · next hh =>
    have ht : t ∉ s.keys := fun hm =>
      hh ((store_has_iff_mem_keys s t).2 hm)
    simp [List.nodup_append, h, ht]

/-- `addClans` preserves key uniqueness of the clan watch set. -/
theorem addClans_clans_keys_nodup (tags : List String) :
    ∀ (st : EventsState), st.clans.keys.Nodup →
      (Events.addClans st tags).clans.keys.Nodup := by
  induction tags with
  | nil => exact fun st h => h
  | cons a l ih =>
    intro st h
    rw [Events.addClans, List.foldl_cons]
    refine ih _ ?_
    cases hv : validateTag a with
    | none => simpa [hv] using h
    | some tag =>
      simp only [hv]
      split
      · exact store_set_keys_nodup _ _ _ h
      · exact h

/-- `addPlayers` preserves key uniqueness of the player watch set. -/
theorem addPlayers_players_keys_nodup (tags : List String) :
    ∀ (st : EventsState), st.players.keys.Nodup →
      (Events.addPlayers st tags).players.keys.Nodup := by
  induction tags with
  | nil => exact fun st h => h
  | cons a l ih =>
    intro st h
    rw [Events.addPlayers, List.foldl_cons]
    refine ih _ ?_
    cases hv : validateTag a with
    | none => simpa [hv] using h
    | some tag =>
      simp only [hv]
      split
      · exact store_set_keys_nodup _ _ _ h
      · exact h

/-- `addWars` preserves key uniqueness of the war watch set. -/
theorem addWars_wars_keys_nodup (tags : List String) :
    ∀ (st : EventsState), st.wars.keys.Nodup →
      (Events.addWars st tags).wars.keys.Nodup := by
  induction tags with
  | nil => exact fun st h => h
  | cons a l ih =>
    intro st h
    rw [Events.addWars, List.foldl_cons]
    refine ih _ ?_
    cases hv : validateTag a with
    | none => simpa [hv] using h
    | some tag =>
      simp only [hv]
      split
      · exact store_set_keys_nodup _ _ _ h
      · exact h

/-- C8: for every category, adding an already-present tag is a complete
no-op (state, positions and snapshots untouched); adding an absent valid tag
appends it with the empty snapshot at the end of the insertion order; and
`add*` preserves key uniqueness, so no watch set acquires duplicate keys. -/
theorem add_idempotent_no_duplicates (cat : Category) (st : EventsState)
    (s t : String) (tags : List String) :
    (validateTag s = some t → Store.has (catStore cat st) t = true →
      addTags cat st [s] = st)
    ∧ (validateTag s = some t → Store.has (catStore cat st) t = false →
        (catStore cat (addTags cat st [s])).entries
          = (catStore cat st).entries ++ [(t, .empty)])
    ∧ ((catStore cat st).keys.Nodup →
        (catStore cat (addTags cat st tags)).keys.Nodup) := by
  refine ⟨?_, ?_, ?_⟩
  · intro hv hh
    cases cat <;>
      simp [addTags, Events.addClans, Events.addPlayers, Events.addWars,
        catStore, hv, hh] at *
  · intro hv hh
    cases cat <;>
      simp [addTags, Events.addClans, Events.addPlayers, Events.addWars,
        catStore, hv, hh, store_entries_set_absent] at *
  · intro h
    cases cat
    · exact addClans_clans_keys_nodup tags st h
    · exact addPlayers_players_keys_nodup tags st h
    · exact addWars_wars_keys_nodup tags st h

/-- C8 witness: with `"#PPP"` watched, adding `"#ppp"` (which normalizes to
the same tag) changes nothing. -/
theorem add_idempotent_no_duplicates_witness :
    addTags .player (addTags .player sampleState ["#PPP"]) ["#ppp"]
      = addTags .player sampleState ["#PPP"] :=
  (add_idempotent_no_duplicates .player (addTags .player sampleState ["#PPP"])
    "#ppp" "#PPP" []).1 (by decide) (by decide)

/-- Every successful regex match consists of 3 to 9 allowed characters. -/
theorem execTagRegex_sound : ∀ (s r : List Char), execTagRegex s = some r →
    (∀ c ∈ r, isAllowed c = true) ∧ 3 ≤ r.length ∧ r.length ≤ 9 := by
  intro s
  induction s with
  | nil => intro r h; simp [execTagRegex] at h
  | cons c rest ih =>
    intro r h
    simp only [execTagRegex] at h
    split at h
    · next hrun =>
      obtain rfl : (List.takeWhile isAllowed (c :: rest)).take 9 = r := by
        exact Option.some.inj h
      refine ⟨?_, ?_, ?_⟩
      · intro x hx
        exact List.mem_takeWhile_imp (List.take_subset _ _ hx)
      · rw [List.length_take]
        omega
      · rw [List.length_take]
        omega
    · exact ih r h

/-- A string of 3 to 9 allowed characters matches the tag regex whole. -/
theorem execTagRegex_complete (r : List Char) (hall : ∀ c ∈ r, isAllowed c = true)
    (h3 : 3 ≤ r.length) (h9 : r.length ≤ 9) : execTagRegex r = some r := by
  cases r with
  | nil => simp at h3
  | cons c rest =>
    simp only [execTagRegex]
    rw [List.takeWhile_eq_self_iff.2 hall, if_pos h3, List.take_of_length_le h9]

/-- The allowed tag characters are fixed points of uppercasing followed by
the `O → 0` substitution. -/
theorem replaceO_jsUpper_fixes (c : Char) (h : isAllowed c = true) :
    replaceO (jsUpper c) = c := by
  have hm : c ∈ allowedChars := by
    simpa [isAllowed, List.contains_iff_exists_mem_beq, beq_iff_eq] using h
  fin_cases hm <;> decide

/-- Mapping the normalization characterwise over an allowed string is the
identity. -/
theorem map_fix_of_allowed (r : List Char) (h : ∀ c ∈ r, isAllowed c = true) :
    r.map (fun c => replaceO (jsUpper c)) = r := by
  have h2 : r.map (fun c => replaceO (jsUpper c)) = r.map id :=
    List.map_congr_left fun a ha => replaceO_jsUpper_fixes a (h a ha)
  simpa using h2

/-- Every successful `validateTag` result is `#` followed by a 3–9 character
allowed run. -/
theorem validateTagL_sound (s l : List Char) (h : validateTagL s = some l) :
    ∃ r, l = '#' :: r ∧ (∀ c ∈ r, isAllowed c = true) ∧ 3 ≤ r.length ∧ r.length ≤ 9 := by
  unfold validateTagL at h
  split at h
  · exact absurd h (by simp)
  · dsimp only at h
    split at h
    · next r hr =>
      obtain rfl : '#' :: r = l := Option.some.inj h
      obtain ⟨hall, h3, h9⟩ := execTagRegex_sound _ _ hr
      exact ⟨r, rfl, hall, h3, h9⟩
    · exact absurd h (by simp)

/-- A normalized tag revalidates to itself. -/
theorem validateTagL_idem (r : List Char) (hall : ∀ c ∈ r, isAllowed c = true)
    (h3 : 3 ≤ r.length) (h9 : r.length ≤ 9) :
    validateTagL ('#' :: r) = some ('#' :: r) := by
  unfold validateTagL
  rw [if_neg (by simp)]
  dsimp only
  rw [List.map_cons, map_fix_of_allowed r hall,
    show replaceO (jsUpper '#') = '#' from by decide,
    show removeFirstHash ('#' :: r) = r from by simp [removeFirstHash],
    execTagRegex_complete r hall h3 h9]

/-- C10: tag normalization is idempotent — whenever `validateTag s` returns
a tag `t` (rather than `false`), `validateTag t` returns `t` itself — and
every successful result is `#` followed by 3 to 9 characters drawn from
`0289PYLQGRJCUV`. -/
theorem validateTag_idempotent (s t : String) (h : validateTag s = some t) :
    validateTag t = some t
    ∧ ∃ r, t.data = '#' :: r ∧ (∀ c ∈ r, isAllowed c = true)
        ∧ 3 ≤ r.length ∧ r.length ≤ 9 := by
  obtain ⟨l, hl, rfl⟩ : ∃ l, validateTagL s.data = some l ∧ t = ⟨l⟩ := by
    unfold validateTag at h
    cases hvl : validateTagL s.data with
    | none => rw [hvl] at h; simp at h
    | some l =>
      rw [hvl] at h
      have h2 : some (⟨l⟩ : String) = some t := h
      exact ⟨l, rfl, (Option.some.inj h2).symm⟩
  obtain ⟨r, rfl, hall, h3, h9⟩ := validateTagL_sound _ _ hl
  refine ⟨?_, r, rfl, hall, h3, h9⟩
  unfold validateTag
  rw [show String.data ⟨'#' :: r⟩ = '#' :: r from rfl,
    validateTagL_idem r hall h3 h9]
  rfl

/-- C10 witness: `"#8qu8j9lp"` normalizes to `"#8QU8J9LP"`, which
revalidates to itself unchanged. -/
theorem validateTag_idempotent_witness :
    validateTag "#8qu8j9lp" = some "#8QU8J9LP"
    ∧ validateTag "#8QU8J9LP" = some "#8QU8J9LP" :=
  ⟨by decide, (validateTag_idempotent "#8qu8j9lp" "#8QU8J9LP" (by decide)).1⟩

/-- The `token` getter never changes the pool. -/
theorem tokenStep_tokens (st : EventsState) : (tokenStep st).2.tokens = st.tokens := rfl

/-- The cursor advance of the `token` getter is addition modulo the pool
size. -/
theorem tokenStep_activeToken (st : EventsState) (h : st.activeToken < st.tokens.length) :
    (tokenStep st).2.activeToken = (st.activeToken + 1) % st.tokens.length := by
  unfold tokenStep
  dsimp only
  by_cases hle : st.tokens.length ≤ st.activeToken + 1
  · rw [if_pos hle]
    have h1 : st.activeToken + 1 = st.tokens.length := by omega
    rw [h1, Nat.mod_self]
  · rw [if_neg hle, Nat.mod_eq_of_lt (by omega)]

/-- `n` consecutive token reads from cursor `i` return the pool entries at
positions `(i + j) % N` in order. -/
theorem tokenRun_formula : ∀ (n : Nat) (st : EventsState),
    st.activeToken < st.tokens.length →
    tokenRun n st =
      (List.range n).map
        (fun j => st.tokens.get? ((st.activeToken + j) % st.tokens.length)) := by
  intro n
  induction n with
  | zero => intro st _; rfl
  | succ n ih =>
    intro st h
    have hlen : 0 < st.tokens.length := by omega
    have hstep : (tokenStep st).2.activeToken < (tokenStep st).2.tokens.length := by
      rw [tokenStep_tokens, tokenStep_activeToken st h]
      exact Nat.mod_lt _ hlen
    rw [show tokenRun (n + 1) st = (tokenStep st).1 :: tokenRun n (tokenStep st).2 from rfl,
      ih _ hstep]
    simp only [tokenStep_tokens, tokenStep_activeToken st h, Nat.mod_add_mod]
    rw [List.range_succ_eq_map, List.map_cons, List.map_map]
    congr 1
    · show st.tokens.get? st.activeToken = _
      rw [Nat.add_zero, Nat.mod_eq_of_lt h]
    · apply List.map_congr_left
      intro j _
      have harg : st.activeToken + 1 + j = st.activeToken + Nat.succ j := by omega
      simp only [Function.comp_apply, harg]

/-- The position sequence `(i + j) % N` over `j < N` reads off exactly the
rotation of the pool by `i`. -/
theorem range_map_mod_eq_rotate (l : List String) (i : Nat) (h : i < l.length) :
    (List.range l.length).map (fun j => l.get? ((i + j) % l.length))
      = (l.rotate i).map some := by
  apply List.ext_get?
  intro n
  by_cases hn : n < l.length
  · have hidx : (i + n) % l.length < l.length := Nat.mod_lt _ (by omega)
    simp only [List.get?_map, List.get?_range hn, List.get?_rotate hn, Option.map_some',
      Nat.add_comm n i, List.get?_eq_get hidx]
  · have hL : (List.map (fun j => l.get? ((i + j) % l.length)) (List.range l.length)).get? n
        = none := List.get?_eq_none.2 (by simpa using by omega)
    have hR : ((l.rotate i).map some).get? n = none :=
      List.get?_eq_none.2 (by simp [List.length_rotate]; omega)
    rw [hL, hR]

/-- C5: the credential selector returns the entry at the current cursor and
advances the cursor by one modulo the pool size, so the cursor stays in
`[0, N)` and `N` consecutive selections read off a rotation of the pool —
each credential exactly once before repeating — independent of who calls. -/
theorem tokenStep_round_robin (st : EventsState) (hi : st.activeToken < st.tokens.length) :
    (tokenStep st).1 = st.tokens.get? st.activeToken
    ∧ (tokenStep st).2.activeToken = (st.activeToken + 1) % st.tokens.length
    ∧ (tokenStep st).2.activeToken < st.tokens.length
    ∧ tokenRun st.tokens.length st = (st.tokens.rotate st.activeToken).map some
    ∧ (st.tokens.rotate st.activeToken).Perm st.tokens := by
  have hlen : 0 < st.tokens.length := by omega
  refine ⟨rfl, tokenStep_activeToken st hi, ?_, ?_, List.rotate_perm _ _⟩
  · rw [tokenStep_activeToken st hi]
    exact Nat.mod_lt _ hlen
  · rw [tokenRun_formula _ st hi, range_map_mod_eq_rotate _ _ hi]

/-- C5 witness: three reads over the pool `[A, B, C]` starting at cursor 1
visit B, C, A — each credential exactly once. -/
theorem tokenStep_round_robin_witness :
    tokenRun 3 sampleState = [some "B", some "C", some "A"] :=
  ((tokenStep_round_robin sampleState (by decide)).2.2.2.1).trans (by decide)

/-- `clear*` raises the category's abort flag. -/
theorem catFlag_clearCat (cat : Category) (st : EventsState) :
    catFlag cat (clearCat cat st) = true := by
  cases cat <;> rfl

/-- `clear*` empties the category's watch set. -/
theorem catStore_clearCat (cat : Category) (st : EventsState) :
    catStore cat (clearCat cat st) = ⟨[]⟩ := by
  cases cat <;> rfl

/-- The update handler never touches the abort flag. -/
theorem catFlag_handleUpdate (cat : Category) (st : EventsState) (t : String) (r : FetchResult) :
    catFlag cat (handleUpdate cat st t r) = catFlag cat st := by
  cases cat <;> rfl

/-- A `clear*` after a handler write wipes the handler's store write. -/
theorem clearCat_handleUpdate (cat : Category) (st : EventsState) (t : String) (r : FetchResult) :
    clearCat cat (handleUpdate cat st t r) = clearCat cat st := by
  cases cat <;> rfl

/-- The post-abort reset leaves the category's watch set empty. -/
theorem catStore_resetAbort (cat : Category) (st : EventsState) :
    catStore cat (resetAbort cat st) = ⟨[]⟩ := by
  cases cat <;> rfl

/-- The post-abort reset lowers the abort flag. -/
theorem catFlag_resetAbort (cat : Category) (st : EventsState) :
    catFlag cat (resetAbort cat st) = false := by
  cases cat <;> rfl

/-- The post-abort reset does not touch the maintenance flag. -/
theorem isInMaintenance_resetAbort (cat : Category) (st : EventsState) :
    (resetAbort cat st).isInMaintenance = st.isInMaintenance := by
  cases cat <;> rfl

/-- `clear*` does not touch the maintenance flag. -/
theorem isInMaintenance_clearCat (cat : Category) (st : EventsState) :
    (clearCat cat st).isInMaintenance = st.isInMaintenance := by
  cases cat <;> rfl

/-- When every fetch returns, the tag loop never ends in a thrown state. -/
theorem sweepLoop_not_thrown (cat : Category) (env : Nat → Bool)
    (f : Nat → Except JsError FetchResult) (hf : ∀ j, (f j).isOk = true) :
    ∀ (l : List String) (st : EventsState) (k : Nat),
      (sweepLoop cat env f l st k).thrown = false := by
  intro l
  induction l with
  | nil =>
    intro st k
    rw [sweepLoop]
    split <;> split <;> rfl
  | cons t rest ih =>
    intro st k
    rw [sweepLoop]
    split <;> split
    all_goals try rfl
    all_goals
      cases hfk : f k with
      | error e => simpa [Except.isOk, Except.toBool, hfk] using hf k
      | ok r =>
        simp only [hfk]
        exact ih _ _

/-- C1 counterexample: a sweep pass that starts while the maintenance flag
is set returns without scheduling anything — the loop stops rescheduling
itself, contradicting "regardless of the maintenance flag". -/
theorem sweepPass_maintenance_no_reschedule :
    (sweepPass .clan (fun _ => false) (fun _ => .ok sentinel504) 0
      { sampleState with isInMaintenance := true }).reschedule = none := rfl

/-- C1 (amended): once started, a pass that begins with the maintenance
flag unset and whose fetches all return ends by scheduling the next pass
after the computed wait, whatever the fetched values and whatever clears
happen during the pass. -/
theorem sweepPass_reschedules (cat : Category) (env : Nat → Bool)
    (f : Nat → Except JsError FetchResult) (d : Nat) (st : EventsState)
    (hm : st.isInMaintenance = false) (hf : ∀ j, (f j).isOk = true) :
    (sweepPass cat env f d st).reschedule = some (waitFor st.refreshRate d) := by
  simp [sweepPass, hm, sweepLoop_not_thrown cat env f hf]

/-- C1 witness: a pass over an empty watch set with the flag unset and
duration 30 ms schedules the next pass after 119970 ms. -/
theorem sweepPass_reschedules_witness :
    (sweepPass .player (fun _ => false) (fun _ => .ok sentinel504) 30 sampleState).reschedule
      = some 119970 :=
  (sweepPass_reschedules .player (fun _ => false) (fun _ => .ok sentinel504) 30 sampleState
    rfl (fun _ => rfl)).trans (by decide)

/-- A single concurrent `clear*` landing at iteration `k` of the tag loop:
the loop processes exactly the tags before `k`, then breaks, clears the
watch set and lowers the flag. -/
theorem sweepLoop_singleClear (cat : Category) (f : Nat → Except JsError FetchResult)
    (hf : ∀ j, (f j).isOk = true) :
    ∀ (l : List String) (st : EventsState) (i k : Nat),
      catFlag cat st = false → i ≤ k → k ≤ i + l.length →
      sweepLoop cat (fun j => j == k) f l st i
        = ⟨l.take (k - i), resetAbort cat (clearCat cat st), false⟩ := by
  intro l
  induction l with
  | nil =>
    intro st i k hflag hik hk
    have hki : k = i := by simp at hk; omega
    subst hki
    simp [sweepLoop, catFlag_clearCat, Nat.sub_self]
  | cons t rest ih =>
    intro st i k hflag hik hk
    rcases Nat.eq_or_lt_of_le hik with hki | hlt
    · subst hki
      simp [sweepLoop, catFlag_clearCat, Nat.sub_self]
    · have hne : (i == k) = false := by
        simp [Nat.ne_of_lt hlt]
      obtain ⟨r, hr⟩ : ∃ r, f i = .ok r := by
        cases hfi : f i with
        | error e => simpa [Except.isOk, Except.toBool, hfi] using hf i
        | ok r => exact ⟨r, rfl⟩
      rw [sweepLoop]
      dsimp only
      rw [hne]
      simp only [Bool.false_eq_true, if_false, hflag, hr]
      rw [ih (handleUpdate cat st t r) (i + 1) k
        (by rw [catFlag_handleUpdate]; exact hflag) hlt (by simp at hk ⊢; omega)]
      rw [clearCat_handleUpdate]
      have htake : (t :: rest).take (k - i) = t :: rest.take (k - (i + 1)) := by
        have h1 : k - i = (k - (i + 1)) + 1 := by omega
        rw [h1]
        rfl
      rw [htake]

/-- C6: `clear*` empties the category's watch set and raises its abort
flag; a pass during which the clear lands exits its tag loop at that point
(processing only the earlier tags), clears the watch set again, resets the
flag, and the next pass of that category iterates zero tags. -/
theorem clear_cooperative_cancellation (cat : Category) (st : EventsState) (k d : Nat)
    (f : Nat → Except JsError FetchResult)
    (hm : st.isInMaintenance = false) (hflag : catFlag cat st = false)
    (hf : ∀ j, (f j).isOk = true)
    (hk : k ≤ (Store.keys (catStore cat st)).length) :
    (catStore cat (clearCat cat st) = ⟨[]⟩ ∧ catFlag cat (clearCat cat st) = true)
    ∧ (sweepPass cat (fun j => j == k) f d st).processed
        = (Store.keys (catStore cat st)).take k
    ∧ catStore cat (sweepPass cat (fun j => j == k) f d st).state = ⟨[]⟩
    ∧ catFlag cat (sweepPass cat (fun j => j == k) f d st).state = false
    ∧ (sweepPass cat (fun _ => false) f d
        (sweepPass cat (fun j => j == k) f d st).state).processed = [] := by
  have hloop := sweepLoop_singleClear cat f hf (Store.keys (catStore cat st)) st 0 k
    hflag (Nat.zero_le k) (by simpa using hk)
  have hpass : sweepPass cat (fun j => j == k) f d st
      = ⟨(Store.keys (catStore cat st)).take k, resetAbort cat (clearCat cat st),
         some (waitFor st.refreshRate d)⟩ := by
    simp [sweepPass, hm, hloop]
  refine ⟨⟨catStore_clearCat cat st, catFlag_clearCat cat st⟩, ?_, ?_, ?_, ?_⟩
  · rw [hpass]
  · rw [hpass]
    exact catStore_resetAbort cat _
  · rw [hpass]
    exact catFlag_resetAbort cat _
  · rw [hpass]
    have hm2 : (resetAbort cat (clearCat cat st)).isInMaintenance = false := by
      rw [isInMaintenance_resetAbort, isInMaintenance_clearCat]
      exact hm
    have hkeys : Store.keys (catStore cat (resetAbort cat (clearCat cat st))) = [] := by
      rw [catStore_resetAbort]
      rfl
    have hflag2 : catFlag cat (resetAbort cat (clearCat cat st)) = false :=
      catFlag_resetAbort cat _
    simp [sweepPass, hm2, hkeys, sweepLoop, hflag2]

/-- C6 witness: with clans `#PPP, #LLL` watched and a clear landing at
iteration 1, the pass processes only `#PPP`. -/
theorem clear_cooperative_cancellation_witness :
    (sweepPass .clan (fun j => j == 1) (fun _ => .ok sentinel504) 5
      (addTags .clan sampleState ["#PPP", "#LLL"])).processed = ["#PPP"] :=
  ((clear_cooperative_cancellation .clan (addTags .clan sampleState ["#PPP", "#LLL"]) 1 5
      (fun _ => .ok sentinel504) (by decide) (by decide) (fun _ => rfl) (by decide)).2.1).trans
    (by decide)

end ClashSpec
